/-
Verification of the moat-victron inverter control engine.

Shallow embedding of src/victron/inv/__init__.py (class InvControl),
src/victron/inv/_util.py (balance), and src/victron/inv/analyze.py
(InvMode_Analyze), over exact rational arithmetic.  Python floats are
modelled as ℚ; the stable Python sort builtin is modelled by the stable
`List.insertionSort` of Mathlib; division by zero is the junk value 0 as
in ℚ.
-/
import Mathlib

namespace Inv

/-- Controller state: the signal values and configuration read by
`InvControl.calc_inv_p` and friends.  Fields named `*_meas` hold the raw
bus values (`self._u_dc.value`, `self._i_batt.value`,
`self._batt_soc.value`); the corresponding Python properties are the
functions below. -/
structure InvState where
  n_phase : ℕ
  u_dc_meas : ℚ
  i_batt_meas : ℚ
  r_int : ℚ
  batt_soc_meas : ℚ
  i_pv : ℚ
  i_pv_max : ℚ
  pv_margin : ℚ
  pv_delta : ℚ
  ib_chg : ℚ
  ib_dis : ℚ
  ok_chg : Bool
  ok_dis : Bool
  u_min : ℚ
  u_max : ℚ
  umin_diff : ℚ
  umax_diff : ℚ
  top_off : Bool
  b_cap : ℚ
  cap_scale : ℚ
  pg_min : ℚ
  pg_max : ℚ
  inv_eff : ℚ
  p_per_phase : ℚ
  f_step : ℚ
  p_step : ℚ
  f_delta : ℚ
  last_p : ℚ
  dest_p : ℚ
  step : ℕ
  p_cons_ : List ℚ
  p_crit_ : List ℚ

/-- `InvControl.i_batt`: the battery current, sign-inverted bus reading. -/
def i_batt (s : InvState) : ℚ := -s.i_batt_meas

/-- `InvControl.u_dc`: measured voltage corrected for internal resistance. -/
def u_dc (s : InvState) : ℚ := s.u_dc_meas + i_batt s * s.r_int

/-- `InvControl.batt_soc`: SoC as a fraction. -/
def batt_soc (s : InvState) : ℚ := s.batt_soc_meas / 100

/-- `InvControl.ib_max`: max discharge current, 0 if the BMS disallows. -/
def ib_max (s : InvState) : ℚ := if s.ok_dis then s.ib_dis else 0

/-- `InvControl.ib_min`: max charge current (negative), 0 if disallowed. -/
def ib_min (s : InvState) : ℚ := if s.ok_chg then -s.ib_chg else 0

/-- `InvControl.i_from_p`: DC current for a given AC power.
(`res = -p/u_dc`, then `res /= inv_eff` when `rev == (res < 0)` else
`res *= inv_eff`.) -/
def i_from_p (s : InvState) (p : ℚ) (rev : Bool) : ℚ :=
  if rev = decide (-p / u_dc s < 0) then -p / u_dc s / s.inv_eff
  else -p / u_dc s * s.inv_eff

/-- `InvControl.p_from_i`: AC power for a given DC current.
(`res = -i*u_dc`, then `res /= inv_eff` when `rev == (res > 0)` else
`res *= inv_eff`.) -/
def p_from_i (s : InvState) (i : ℚ) (rev : Bool) : ℚ :=
  if rev = decide (-i * u_dc s > 0) then -i * u_dc s / s.inv_eff
  else -i * u_dc s * s.inv_eff

/-- `InvControl.small_p_step`. -/
def small_p_step (s : InvState) (p q : ℚ) : Bool :=
  if |p - q| < s.p_step then true
  else if (decide (p > 0)) ≠ (decide (q > 0)) then false
  else if 10/12 < (s.p_step + |p|) / (s.p_step + |q|) ∧
          (s.p_step + |p|) / (s.p_step + |q|) < 12/10 then true
  else false

/-- The `U_MAX` taper threshold `i_maxchg` of `calc_inv_p`. -/
def i_maxchg (s : InvState) : ℚ :=
  s.b_cap / s.cap_scale * ((if s.top_off then 0 else s.umax_diff) - (s.u_max - u_dc s))
    / s.umax_diff

/-- The `U_MIN` taper threshold `i_maxdis` of `calc_inv_p`. -/
def i_maxdis (s : InvState) : ℚ :=
  -s.b_cap / s.cap_scale * (s.umin_diff - (u_dc s - s.u_min)) / s.umin_diff

/-- Working values and fired-rule record of the `calc_inv_p` constraint
pipeline (the `lims` entries of the diagnostic snapshot). -/
structure PipeResult where
  p : ℚ
  i_batt : ℚ
  i_inv : ℚ
  r1 : Bool
  r2 : Bool
  r3 : Bool
  r4 : Bool
  r5a : Bool
  r5b : Bool
  r6 : Bool
  r7l : Bool
  r7h : Bool
  r8 : Bool
  lim_maxchg : ℚ
  lim_maxdis : ℚ
  lim_udc : ℚ

/-- The `IB_ERR_L` / `IB_ERR_H` hard battery clamps of `calc_inv_p`,
acting on the working pair `(i_batt, i_inv)`. -/
def ibClamp (s : InvState) (ib ii : ℚ) : ℚ × ℚ :=
  let r7l := decide (ib < ib_min s)
  let ib7 := if r7l then ib_min s else ib
  let ii7 := if r7l then -ib7 - s.i_pv else ii
  let r7h := decide (ib7 > ib_max s)
  let ib8 := if r7h then ib_max s else ib7
  let ii8 := if r7h then -ib8 - s.i_pv else ii7
  (ib8, ii8)

/-- The ordered constraint pipeline of `InvControl.calc_inv_p`, from the
initial conversion of the request `p0` down to the `P_EXC` rule.  Each
rule updates exactly the working values the Python code updates. -/
def pipeline (s : InvState) (p0 : ℚ) (excess : Option ℚ) : PipeResult :=
  let ii0 := i_from_p s p0 true
  let ib0 := -ii0 - s.i_pv
  -- I_PVD
  let imax1 := ib_max s - ii0
  let r1 := decide (s.i_pv_max > s.pv_delta) && decide (imax1 - ib0 < s.pv_delta)
  let ib1 := if r1 then imax1 - s.pv_delta else ib0
  -- U_MAX
  let r2 := decide (ib1 < i_maxchg s)
  let ib2 := if r2 then i_maxchg s else ib1
  let ii2 := if r2 then -ib2 - s.i_pv else ii0
  -- U_MIN
  let r3 := decide (ib2 > i_maxdis s)
  let ib3 := if r3 then i_maxdis s else ib2
  let ii3 := if r3 then -ib3 - s.i_pv else ii2
  -- I_MAX
  let ipvmax := -ib_min s - ii3
  let r4 := decide (ipvmax - s.i_pv < s.pv_delta)
  let d4 := s.pv_delta - (ipvmax - s.i_pv)
  let ib4 := if r4 then ib3 - d4 else ib3
  let ii4 := if r4 then -ib4 - s.i_pv else ii3
  -- P_MIN / P_MAX
  let pA := p_from_i s ii4 false
  let r5a := decide (pA < s.pg_min)
  let pB := if r5a then s.pg_min else pA
  let r5b := decide (pB > s.pg_max)
  let pC := if r5b then s.pg_max else pB
  -- I_MIN
  let ii5 := i_from_p s pC true
  let ipvmin := s.i_pv_max * s.pv_margin
  let r6 := decide (-ii5 - ipvmin > ib_max s)
  let ii6 := if r6 then -ipvmin - ib_max s else ii5
  let ib6 := if r6 then -ii6 - s.i_pv else ib4
  -- IB_ERR_L / IB_ERR_H
  let r7l := decide (ib6 < ib_min s)
  let r7h := decide ((if r7l then ib_min s else ib6) > ib_max s)
  let ibp := ibClamp s ib6 ii6
  -- back to the AC side
  let pD := p_from_i s ibp.2 false
  -- P_EXC
  let r8 := match excess with
    | none => false
    | some exc => decide (pD > 0 ∧ pD > p0 + exc)
  let pE := match excess with
    | none => pD
    | some exc => if pD > 0 ∧ pD > p0 + exc then p0 + exc else pD
  ⟨pE, ibp.1, ibp.2, r1, r2, r3, r4, r5a, r5b, r6, r7l, r7h, r8,
    i_maxchg s, i_maxdis s, u_dc s⟩

/-- `_avg_task` body, one iteration: state is `(i_pv_max, pv_margin)`,
input is the current `i_pv` reading (`none` models a missing value). -/
def avg_step (st : ℚ × ℚ) (i : Option ℚ) : ℚ × ℚ :=
  match i with
  | none => st
  | some ipv =>
    if st.1 < ipv then (ipv, st.2)
    else if 1000 < st.1 ∧ ipv < st.1 * st.2 then (st.1, ipv / st.1)
    else (st.1 + (ipv - st.1) / 20, st.2)

/-- Outcome of step 5 of `InvMode_Analyze.run`: the loss value, whether
the result is valid, and the `(cap, loss, top)` triple submitted to the
BMS (`none` when nothing is submitted). -/
structure AnalyzeOut where
  loss : ℚ
  valid : Bool
  submit : Option (ℚ × ℚ × Bool)

/-- `InvMode_Analyze.run`, step 5 (loss derivation and BMS programming);
`skip` is the remaining skip counter at that step. -/
def analyze_finalize (e_chg e_dis e_chg_d e_dis_c : ℚ) (skip : ℕ) : AnalyzeOut :=
  let loss := 1 - (e_dis + e_dis_c) / (e_chg + e_chg_d + 1)
  if loss < 0 then ⟨loss, false, none⟩
  else if skip ≠ 0 then ⟨loss, true, none⟩
  else ⟨loss, true, some (e_dis, loss, true)⟩

/-- The mode names registered in `InvControl.MODES`: the `_name`
attribute of each mode class (`analyze.py`, `batt_current.py`,
`grid_power.py`, `idle.py`, `inv_power.py`, `off.py`, `remote.py`,
`set_soc.py`). -/
def MODES : List String :=
  ["analyze", "i_batt", "gridsetpoint", "idle", "p_inv", "off", "remote", "soc"]

/-- The mode name that step 6 of `InvMode_Analyze.run` hands off to. -/
def analyze_handoff (skipped use_grid : Bool) : String :=
  if skipped then "p_off" else if use_grid then "p_grid" else "p_inv"

/-- Failure codes of the control surface (`DBusError` names
`org.m_o_a_t.inv.too_early` / `org.m_o_a_t.inv.unknown`). -/
inductive Fault where
  | tooEarly
  | unknownMode
  deriving Repr, DecidableEq

/-- `dict[k] = v` on an association list, preserving insertion order. -/
def dictSet (m : List (String × Int)) (k : String) (v : Int) : List (String × Int) :=
  if m.any (fun kv => kv.1 = k) then
    m.map (fun kv => if kv.1 = k then (k, v) else kv)
  else m ++ [(k, v)]

/-- Python `dict.update`. -/
def dictUpdate (m data : List (String × Int)) : List (String × Int) :=
  data.foldl (fun m kv => dictSet m kv.1 kv.2) m

/-- Python `dict.setdefault`. -/
def dictSetdefault (m : List (String × Int)) (k : String) (v : Int) :
    List (String × Int) :=
  if m.any (fun kv => kv.1 = k) then m else m ++ [(k, v)]

/-- The mode-runner state read and written by `InvControl.change_mode`:
the active mode `_mode`, whether `_change_mode_evt` is a live event
(`false` models `None`, i.e. the 30-second settling window is running),
the operator-parameter map `op`, and the per-mode defaults stored under
the `modes` configuration key. -/
structure CtrlState where
  mode : Option String
  evtLive : Bool
  op : List (String × Int)
  cfg_modes : String → List (String × Int)

/-- `InvControl.change_mode`.  Returns the `DBusError` fault or success,
paired with the state as left by the call (errors abort before any
mutation, as in the Python code). -/
def change_mode (s : CtrlState) (mode : String) (data : List (String × Int)) :
    Except Fault Unit × CtrlState :=
  if s.mode = none ∨ s.mode ≠ some mode then
    if s.evtLive = false then (Except.error Fault.tooEarly, s)
    else if mode ∉ MODES then (Except.error Fault.unknownMode, s)
    else
      let s1 : CtrlState := { s with mode := some mode }
      let op1 := dictUpdate s1.op data
      let op2 := (s1.cfg_modes mode).foldl
        (fun m kv => dictSetdefault m kv.1 kv.2) op1
      (Except.ok (), { s1 with op := op2 })
  else
    let op1 := dictUpdate s.op data
    let op2 := (s.cfg_modes mode).foldl
      (fun m kv => dictSetdefault m kv.1 kv.2) op1
    (Except.ok (), { s with op := op2 })

/-- The absorb loop of `_util.balance`: pops the sorted working list from
its small end (here: recursion over the ascending list), zeroes
non-positive entries, and spreads the total `d` of the opposite side
over the positive entries, `d/(remaining+1)` at a time. -/
def absorb : ℚ → List (ℕ × ℚ) → List (ℕ × ℚ)
  | _, [] => []
  | d, (i, v) :: rest =>
    if v ≤ 0 then (i, 0) :: absorb d rest
    else
      let rd := d / (rest.length + 1)
      if v ≤ rd then (i, 0) :: absorb (d - v) rest
      else (i, v - rd) :: absorb (d - rd) rest

/-- The clamp loop of `_util.balance`: pops the working list from its
large end (here: recursion over the descending list), caps entries at
`m i`, and spreads the resulting overflow `d` over the rest. -/
def clampLoop (m : ℕ → ℚ) : ℚ → List (ℕ × ℚ) → List (ℕ × ℚ)
  | _, [] => []
  | d, (i, v) :: rest =>
    let rd := d / (rest.length + 1)
    if m i < v + rd then (i, m i) :: clampLoop m (d + (v - m i)) rest
    else (i, v + rd) :: clampLoop m (d - rd) rest

/-- Whether the clamp loop ever takes its capping branch. -/
def clampHits (m : ℕ → ℚ) : ℚ → List (ℕ × ℚ) → Bool
  | _, [] => false
  | d, (i, v) :: rest =>
    let rd := d / (rest.length + 1)
    if m i < v + rd then true else clampHits m (d - rd) rest

/-- `_util.balance`, local `sl`: total magnitude of the negative side. -/
def balanceSl (a : List ℚ) : ℚ :=
  ((a.filter (fun x => decide (x < 0))).map (fun x => -x)).sum

/-- `_util.balance`, local `sh`: total of the positive side. -/
def balanceSh (a : List ℚ) : ℚ := (a.filter (fun x => decide (0 < x))).sum

/-- `_util.balance`, local `rev`: whether the negative side dominates. -/
def balanceRev (a : List ℚ) : Bool := decide (balanceSh a < balanceSl a)

/-- `_util.balance`: the sign-normalised working list. -/
def balanceWork (a : List ℚ) : List ℚ :=
  if balanceRev a then a.map (fun x => -x) else a

/-- `_util.balance`, local `d`: the side total to absorb. -/
def balanceD (a : List ℚ) : ℚ :=
  if balanceRev a then balanceSh a else balanceSl a

/-- `_util.balance`: the working list, enumerated and sorted ascending by
value (Python sorts descending with the stable sort builtin and pops
from the end; modelled by the stable `List.insertionSort` plus
`reverse`). -/
def balanceAsc (a : List ℚ) : List (ℕ × ℚ) :=
  ((balanceWork a).enum.insertionSort (fun x y => y.2 ≤ x.2)).reverse

/-- Whether the sign-absorption stage is skipped: the smallest working
value (head of the ascending list) is already non-negative. -/
def balanceSkip (a : List ℚ) : Bool :=
  match balanceAsc a with
  | [] => true
  | (_, v) :: _ => decide (0 ≤ v)

/-- `_util.balance`, local `ra`: the list after the sign-absorption
stage (skipped when no negative entry remains). -/
def balanceRa (a : List ℚ) : List (ℕ × ℚ) :=
  if balanceSkip a then balanceAsc a
  else absorb (balanceD a) (balanceAsc a)

/-- `_util.balance`.  The optional bounds are index functions (Python
accepts a scalar, expanded to a constant list, or a list indexed by the
original position of the entry). -/
def balance (a : List ℚ) (mmin mmax : Option (ℕ → ℚ)) : List ℚ :=
  if a.isEmpty then a else
  let rev := balanceRev a
  let ra := balanceRa a
  let a2 := match (if rev then mmin else mmax) with
    | none => ra
    | some f => clampLoop (fun i => if rev then -(f i) else f i) 0 ra.reverse
  let fin := a2.insertionSort (fun x y => x.1 ≤ y.1)
  if rev then fin.map (fun x => -x.2) else fin.map (fun x => x.2)

/-- Whether a `balance` run takes any per-entry clamp branch. -/
def balanceClampActive (a : List ℚ) (mmin mmax : Option (ℕ → ℚ)) : Bool :=
  if a.isEmpty then false else
  let rev := balanceRev a
  let ra := balanceRa a
  match (if rev then mmin else mmax) with
  | none => false
  | some f => clampHits (fun i => if rev then -(f i) else f i) 0 ra.reverse

/-- `InvControl.to_phases`: split a scalar power across the phases,
compensating load imbalance, then balance within `±p_per_phase`. -/
def to_phases (s : InvState) (p : ℚ) : List ℚ :=
  if s.n_phase = 0 then [] else
  let load := s.p_cons_.map (fun b => -b)
  let load_avg := load.sum / s.n_phase
  let ps := load.map (fun g => p / s.n_phase - (g - load_avg))
  balance ps (some fun _ => -s.p_per_phase) (some fun _ => s.p_per_phase)

/-- Output of one `calc_inv_p` call: the diagnostic snapshot fields
(`init`, `dest`, `setpoint`, `inv_phases`, `phases`) plus the pipeline
record. -/
structure CalcResult where
  pipe : PipeResult
  init : ℚ
  dest : ℚ
  setpoint : ℚ
  inv_phases : List ℚ
  phases : List ℚ

/-- `InvControl.calc_inv_p`: the constraint pipeline, the step damper and
the phase split.  `fpow stepc` models the float expression
`f_step ** (2/stepc)` of the damped branch (transcendental for
`stepc > 2`, so it is a parameter of the embedding; `fpow 1 = f_step²`
and `fpow 2 = f_step` for a faithful instantiation).  Returns `none`
when `n_phase` is 0 (the Python code returns `[]` without computing),
otherwise the diagnostic record and the updated controller state
(`dest_p`, `last_p`, `step`). -/
def calc_inv_p (fpow : ℕ → ℚ) (s : InvState) (p0 : ℚ) (excess : Option ℚ)
    (phase : Option ℕ) : Option (CalcResult × InvState) :=
  if s.n_phase = 0 then none else
  let pr := pipeline s p0 excess
  let p := pr.p
  let res :=
    if (s.f_delta ≤ batt_soc s ∧ batt_soc s ≤ 1 - s.f_delta) ∨
        small_p_step s s.last_p p = true then
      (p, 1)
    else
      let stepc := if small_p_step s s.dest_p p = true then s.step + 1 else 2
      let pd0 := (p - s.last_p) * fpow stepc
      let pd := if |pd0| < s.p_step then s.p_step * (if pd0 < 0 then -1 else 1)
        else pd0
      (s.last_p + pd, stepc)
  let np := res.1
  let ps :=
    if phase = none ∧ 1 < s.n_phase then to_phases s np
    else (List.replicate s.n_phase (0:ℚ)).set
      (match phase with | none => 0 | some k => if k = 0 then 0 else k - 1) np
  let phases := List.zipWith (fun a b => a - b) ps s.p_crit_
  some (⟨pr, p0, p, np, ps, phases⟩,
    { s with dest_p := p, last_p := np, step := res.2 })

/-- The configuration of `test/test_inv.py` (`FakeInv` defaults plus the
values the scenario table fixes): `u_dc = 100`, `inv_eff = 1/4`,
`ib_min = -20`, `ib_max = 40`, `pg_min = -1100`, `pg_max = 1100`,
`pv_delta = 10`, `pv_margin = 1/2`, `b_cap = 1000`,
`umax_diff = umin_diff = 1/1000`, `u_max = 200`, `u_min = 50`, no PV,
single phase, no critical load, SoC 50 % (damping inactive). -/
def sTest : InvState where
  n_phase := 1
  u_dc_meas := 100
  i_batt_meas := 0
  r_int := 0
  batt_soc_meas := 50
  i_pv := 0
  i_pv_max := 0
  pv_margin := 1/2
  pv_delta := 10
  ib_chg := 20
  ib_dis := 40
  ok_chg := true
  ok_dis := true
  u_min := 50
  u_max := 200
  umin_diff := 1/1000
  umax_diff := 1/1000
  top_off := false
  b_cap := 1000
  cap_scale := 4
  pg_min := -1100
  pg_max := 1100
  inv_eff := 1/4
  p_per_phase := 1000
  f_step := 7/20
  p_step := 100
  f_delta := 1/5
  last_p := 0
  dest_p := 0
  step := 1
  p_cons_ := [0]
  p_crit_ := [0]

/-- A startup state with a strong PV feed not yet seen by the averaging
task (`i_pv = 200 A`, `i_pv_max` still 0) and a BMS that allows no
battery current (`ib_min = ib_max = 0`): here the `IB_ERR_L` clamp fires
after the grid clamps and drives the final power far above `pg_max`. -/
def sPV : InvState where
  n_phase := 1
  u_dc_meas := 100
  i_batt_meas := 0
  r_int := 0
  batt_soc_meas := 50
  i_pv := 200
  i_pv_max := 0
  pv_margin := 2/5
  pv_delta := 30
  ib_chg := 0
  ib_dis := 0
  ok_chg := true
  ok_dis := true
  u_min := 50
  u_max := 200
  umin_diff := 1/2
  umax_diff := 1/2
  top_off := false
  b_cap := 1000
  cap_scale := 4
  pg_min := -1000
  pg_max := 1000
  inv_eff := 1
  p_per_phase := 4500
  f_step := 7/20
  p_step := 100
  f_delta := 1/5
  last_p := 0
  dest_p := 0
  step := 1
  p_cons_ := [0]
  p_crit_ := [0]

/-- A state whose corrected DC voltage is negative: the round-trip
identity fails even though `u_dc ≠ 0` and `inv_eff ≠ 0`. -/
def sNegU : InvState := { sTest with u_dc_meas := -100 }

/-- Controller in mode `analyze`, settling window over, empty parameter
map, no per-mode defaults. -/
def sCtl : CtrlState where
  mode := some "analyze"
  evtLive := true
  op := []
  cfg_modes := fun _ => []

/-- Controller in mode `off`, inside the 30-second settling window
(`_change_mode_evt is None`), one operator parameter set. -/
def sWin : CtrlState where
  mode := some "off"
  evtLive := false
  op := [("power", 1)]
  cfg_modes := fun _ => []

instance relTotal : IsTotal (ℕ × ℚ) (fun x y => y.2 ≤ x.2) :=
  ⟨fun a b => (le_total b.2 a.2)⟩

instance relTrans : IsTrans (ℕ × ℚ) (fun x y => y.2 ≤ x.2) :=
  ⟨fun _ _ _ hab hbc => le_trans hbc hab⟩

instance relTotal2 : IsTotal (ℕ × ℚ) (fun x y => x.1 ≤ y.1) :=
  ⟨fun a b => le_total a.1 b.1⟩

instance relTrans2 : IsTrans (ℕ × ℚ) (fun x y => x.1 ≤ y.1) :=
  ⟨fun _ _ _ hab hbc => le_trans hab hbc⟩

/-- The efficiency round-trip, exact over ℚ, for positive voltage and
efficiency.  (Shared helper; quantifies over the `rev` flag.) -/
theorem p_from_i_i_from_p (s : InvState) (p : ℚ) (rev : Bool)
    (hu : 0 < u_dc s) (he : 0 < s.inv_eff) :
    p_from_i s (i_from_p s p rev) (!rev) = p := by
  have hu0 : u_dc s ≠ 0 := ne_of_gt hu
  have he0 : s.inv_eff ≠ 0 := ne_of_gt he
  rcases lt_trichotomy p 0 with hp | hp | hp
  · -- charging direction: res1 = -p/u_dc > 0
    have h1 : 0 < -p / u_dc s := div_pos (by linarith) hu
    have hd1 : decide (-p / u_dc s < 0) = false := decide_eq_false (not_lt.mpr h1.le)
    cases rev with
    | false =>
      rw [i_from_p, hd1, if_pos rfl, p_from_i]
      have h2 : ¬(-(-p / u_dc s / s.inv_eff) * u_dc s > 0) := by
        have h3 : 0 < -p / u_dc s / s.inv_eff := div_pos h1 he
        nlinarith
      rw [decide_eq_false h2, if_neg (by simp)]
      field_simp
      ring
    | true =>
      rw [i_from_p, hd1, if_neg (by simp), p_from_i]
      have h2 : ¬(-(-p / u_dc s * s.inv_eff) * u_dc s > 0) := by
        have h3 : 0 < -p / u_dc s * s.inv_eff := mul_pos h1 he
        nlinarith
      rw [decide_eq_false h2, if_pos (by simp)]
      field_simp
  · subst hp
    cases rev <;> simp [i_from_p, p_from_i]
  · -- feeding direction: res1 = -p/u_dc < 0
    have h1 : -p / u_dc s < 0 := div_neg_of_neg_of_pos (by linarith) hu
    have hd1 : decide (-p / u_dc s < 0) = true := decide_eq_true h1
    cases rev with
    | false =>
      rw [i_from_p, hd1, if_neg (by simp), p_from_i]
      have h2 : -(-p / u_dc s * s.inv_eff) * u_dc s > 0 := by
        have h3 : -p / u_dc s * s.inv_eff < 0 := mul_neg_of_neg_of_pos h1 he
        nlinarith
      rw [decide_eq_true h2, if_pos (by simp)]
      field_simp
    | true =>
      rw [i_from_p, hd1, if_pos rfl, p_from_i]
      have h2 : -(-p / u_dc s / s.inv_eff) * u_dc s > 0 := by
        have h3 : -p / u_dc s / s.inv_eff < 0 := div_neg_of_neg_of_pos h1 he
        nlinarith
      rw [decide_eq_true h2, if_neg (by simp)]
      field_simp
      ring

/-- The ratio window `10/12 < A/B < 12/10` of `small_p_step` is invariant
under swapping numerator and denominator (with ℚ junk division). -/
theorem ratio_window_comm (A B : ℚ) :
    (10/12 < A / B ∧ A / B < 12/10) ↔ (10/12 < B / A ∧ B / A < 12/10) := by
  rcases lt_trichotomy A 0 with hA | hA | hA <;>
    rcases lt_trichotomy B 0 with hB | hB | hB
  · rw [div_lt_iff_of_neg hB, lt_div_iff_of_neg hB,
        div_lt_iff_of_neg hA, lt_div_iff_of_neg hA]
    constructor <;> rintro ⟨h1, h2⟩ <;> constructor <;> linarith
  · subst hB
    simp only [div_zero, zero_div]
  · have l1 : A / B < 0 := div_neg_of_neg_of_pos hA hB
    have l2 : B / A < 0 := div_neg_of_pos_of_neg hB hA
    constructor <;> rintro ⟨h1, h2⟩ <;> constructor <;> linarith
  · subst hA
    simp only [div_zero, zero_div]
  · subst hA
    simp only [div_zero, zero_div]
  · subst hA
    simp only [div_zero, zero_div]
  · have l1 : A / B < 0 := div_neg_of_pos_of_neg hA hB
    have l2 : B / A < 0 := div_neg_of_neg_of_pos hB hA
    constructor <;> rintro ⟨h1, h2⟩ <;> constructor <;> linarith
  · subst hB
    simp only [div_zero, zero_div]
  · rw [div_lt_iff hB, lt_div_iff hB, div_lt_iff hA, lt_div_iff hA]
    constructor <;> rintro ⟨h1, h2⟩ <;> constructor <;> linarith

/-- `small_p_step` is symmetric in its two value arguments. -/
theorem small_p_step_comm (s : InvState) (p q : ℚ) :
    small_p_step s p q = small_p_step s q p := by
  rw [small_p_step, small_p_step, abs_sub_comm]
  by_cases h1 : |q - p| < s.p_step
  · rw [if_pos h1, if_pos h1]
  · rw [if_neg h1, if_neg h1]
    by_cases h2 : (decide (p > 0)) ≠ (decide (q > 0))
    · rw [if_pos h2, if_pos (Ne.symm h2)]
    · rw [if_neg h2, if_neg (fun hx => h2 (Ne.symm hx))]
      by_cases h3 : 10/12 < (s.p_step + |p|) / (s.p_step + |q|) ∧
          (s.p_step + |p|) / (s.p_step + |q|) < 12/10
      · rw [if_pos h3, if_pos ((ratio_window_comm _ _).mp h3)]
      · rw [if_neg h3, if_neg (fun hx => h3 ((ratio_window_comm _ _).mp hx))]

/-- One `_avg_task` step never increases `pv_margin`. -/
theorem avg_step_margin_le (st : ℚ × ℚ) (i : Option ℚ) :
    (avg_step st i).2 ≤ st.2 := by
  rcases i with _ | ipv
  · simp [avg_step]
  · rw [avg_step]
    split_ifs with h1 h2
    · exact le_refl _
    · have hM : (0:ℚ) < st.1 := lt_trans (by norm_num) h2.1
      exact le_of_lt ((div_lt_iff hM).mpr (by linarith [h2.2]))
    · exact le_refl _

/-- `pv_margin` is non-increasing along any run of `_avg_task`. -/
theorem avg_run_margin_le (l : List (Option ℚ)) (st : ℚ × ℚ) :
    (l.foldl avg_step st).2 ≤ st.2 := by
  induction l generalizing st with
  | nil => exact le_refl _
  | cons i l ih => exact le_trans (ih (avg_step st i)) (avg_step_margin_le st i)

/-- If the clamp loop never caps, it is the identity. -/
theorem clampLoop_no_hit (m : ℕ → ℚ) (l : List (ℕ × ℚ))
    (h : clampHits m 0 l = false) : clampLoop m 0 l = l := by
  induction l with
  | nil => rfl
  | cons x l ih =>
    obtain ⟨i, v⟩ := x
    simp only [clampHits, zero_div, add_zero, sub_zero] at h
    simp only [clampLoop, zero_div, add_zero, sub_zero]
    by_cases hc : m i < v
    · rw [if_pos hc] at h
      exact absurd h (by simp)
    · rw [if_neg hc] at h
      rw [if_neg hc, ih h]

/-- The positive-side filter sum equals the sum of clipped-at-zero values. -/
theorem sum_filter_pos (l : List ℚ) :
    (l.filter (fun x => decide (0 < x))).sum = (l.map (fun x => max x 0)).sum := by
  induction l with
  | nil => rfl
  | cons x l ih =>
    by_cases h : 0 < x
    · simp [List.filter_cons, h, max_eq_left h.le, ih]
    · simp [List.filter_cons, h, max_eq_right (not_lt.mp h), ih]

/-- The negative-side magnitude sum, expressed over the negated list. -/
theorem sum_filter_neg (l : List ℚ) :
    ((l.filter (fun x => decide (x < 0))).map (fun x => -x)).sum =
      ((l.map (fun x => -x)).map (fun x => max x 0)).sum := by
  induction l with
  | nil => rfl
  | cons x l ih =>
    by_cases h : x < 0
    · simp [List.filter_cons, h, max_eq_left (by linarith : (0:ℚ) ≤ -x), ih]
    · simp [List.filter_cons, h,
        max_eq_right (by push_neg at h; linarith : -x ≤ (0:ℚ)), ih]

/-- A list sum splits into the positive side minus the negative-side
magnitude. -/
theorem sum_split (l : List ℚ) :
    l.sum = (l.filter (fun x => decide (0 < x))).sum -
      ((l.filter (fun x => decide (x < 0))).map (fun x => -x)).sum := by
  induction l with
  | nil => simp
  | cons x l ih =>
    rcases lt_trichotomy x 0 with h | h | h
    · simp only [List.filter_cons, List.sum_cons]
      rw [decide_eq_false (by linarith : ¬(0 < x)), decide_eq_true h]
      simp only [Bool.false_eq_true, if_false, if_true, List.map_cons, List.sum_cons]
      rw [ih]; ring
    · subst h
      simp only [List.filter_cons, List.sum_cons]
      norm_num [ih]
    · simp only [List.filter_cons, List.sum_cons]
      rw [decide_eq_true h, decide_eq_false (by linarith : ¬(x < 0))]
      simp only [Bool.false_eq_true, if_false, if_true, List.sum_cons]
      rw [ih]; ring

/-- Summing a negated rational list negates the sum. -/
theorem sum_map_neg_q (l : List ℚ) : (l.map (fun x => -x)).sum = -l.sum := by
  induction l with
  | nil => simp
  | cons x l ih => simp [ih]; ring

/-- The absorb loop consumes exactly `d` out of the clipped-at-zero sum,
provided the list is ascending in its values and `d` fits under that
sum. -/
theorem absorb_sum (l : List (ℕ × ℚ)) (d : ℚ)
    (hsort : l.Pairwise (fun x y => x.2 ≤ y.2)) (hd0 : 0 ≤ d)
    (hdle : d ≤ (l.map (fun x => max x.2 0)).sum) :
    ((absorb d l).map (fun x => x.2)).sum =
      (l.map (fun x => max x.2 0)).sum - d := by
  induction l generalizing d with
  | nil =>
    simp only [absorb, List.map_nil, List.sum_nil] at *
    linarith
  | cons x l ih =>
    obtain ⟨i, v⟩ := x
    obtain ⟨hhead, htail⟩ := List.pairwise_cons.mp hsort
    simp only [List.map_cons, List.sum_cons] at hdle ⊢
    by_cases h1 : v ≤ 0
    · rw [absorb, if_pos h1]
      simp only [List.map_cons, List.sum_cons]
      have hmax : max v 0 = 0 := max_eq_right h1
      rw [ih d htail hd0 (by rw [hmax] at hdle; linarith)]
      rw [hmax]
      ring
    · push_neg at h1
      have hmax : max v 0 = v := max_eq_left h1.le
      rw [absorb, if_neg (not_le.mpr h1)]
      by_cases h2 : v ≤ d / (l.length + 1)
      · rw [if_pos h2]
        have hn1 : (1:ℚ) ≤ (l.length : ℚ) + 1 := by
          have : (0:ℚ) ≤ (l.length : ℚ) := by positivity
          linarith
        have hdd : d / (l.length + 1) ≤ d := div_le_self hd0 hn1
        have hvd : v ≤ d := le_trans h2 hdd
        simp only [List.map_cons, List.sum_cons]
        rw [ih (d - v) htail (by linarith) (by rw [hmax] at hdle; linarith)]
        rw [hmax]
        ring
      · rw [if_neg h2]
        push_neg at h2
        have hn0 : (0:ℚ) ≤ (l.length : ℚ) := by positivity
        have hdd : d / (l.length + 1) ≤ d := div_le_self hd0 (by linarith)
        have hrd0 : 0 ≤ d / (l.length + 1) := by positivity
        have hsum : (l.length : ℚ) * v ≤ (l.map (fun x => max x.2 0)).sum := by
          have h3 : ∀ y ∈ l.map (fun x => max x.2 0), v ≤ y := by
            intro y hy
            obtain ⟨z, hz, rfl⟩ := List.mem_map.mp hy
            exact le_trans (hhead z hz) (le_max_left _ _)
          have h4 := List.card_nsmul_le_sum (l.map (fun x => max x.2 0)) v h3
          rw [List.length_map] at h4
          simpa [nsmul_eq_mul] using h4
        have hkey : d - d / (l.length + 1) ≤ (l.map (fun x => max x.2 0)).sum := by
          have hne : ((l.length : ℚ) + 1) ≠ 0 := by linarith
          have hexp : d - d / (l.length + 1) =
              (l.length : ℚ) * (d / (l.length + 1)) := by
            field_simp
            ring
          rw [hexp]
          calc (l.length : ℚ) * (d / (l.length + 1))
              ≤ (l.length : ℚ) * v := mul_le_mul_of_nonneg_left (le_of_lt h2) hn0
            _ ≤ _ := hsum
        simp only [List.map_cons, List.sum_cons]
        rw [ih (d - d / (l.length + 1)) htail (by linarith) hkey]
        rw [hmax]
        ring

theorem balanceSl_nonneg (a : List ℚ) : 0 ≤ balanceSl a := by
  apply List.sum_nonneg
  intro y hy
  obtain ⟨z, hz, rfl⟩ := List.mem_map.mp hy
  have := of_decide_eq_true (List.mem_filter.mp hz).2
  linarith

theorem balanceSh_nonneg (a : List ℚ) : 0 ≤ balanceSh a := by
  apply List.sum_nonneg
  intro y hy
  have := of_decide_eq_true (List.mem_filter.mp hy).2
  linarith

theorem balanceWork_sum (a : List ℚ) :
    (balanceWork a).sum = if balanceRev a = true then -a.sum else a.sum := by
  rw [balanceWork]
  by_cases h : balanceRev a = true
  · rw [if_pos h, if_pos h, sum_map_neg_q]
  · rw [if_neg h, if_neg h]

theorem balanceWork_posSum (a : List ℚ) :
    ((balanceWork a).map (fun x => max x 0)).sum =
      (if balanceRev a = true then balanceSl a else balanceSh a) := by
  rw [balanceWork]
  by_cases h : balanceRev a = true
  · rw [if_pos h, if_pos h, ← sum_filter_neg]
    rfl
  · rw [if_neg h, if_neg h, ← sum_filter_pos]
    rfl

theorem balanceD_nonneg (a : List ℚ) : 0 ≤ balanceD a := by
  rw [balanceD]
  by_cases h : balanceRev a = true
  · rw [if_pos h]; exact balanceSh_nonneg a
  · rw [if_neg h]; exact balanceSl_nonneg a

theorem balanceD_le (a : List ℚ) :
    balanceD a ≤ ((balanceWork a).map (fun x => max x 0)).sum := by
  rw [balanceD, balanceWork_posSum]
  by_cases h : balanceRev a = true
  · rw [if_pos h, if_pos h]
    rw [balanceRev] at h
    exact le_of_lt (of_decide_eq_true h)
  · rw [if_neg h, if_neg h]
    rw [balanceRev] at h
    exact not_lt.mp (of_decide_eq_false (Bool.eq_false_iff.mpr h))

theorem balanceD_eq (a : List ℚ) :
    balanceD a = ((balanceWork a).map (fun x => max x 0)).sum -
      (balanceWork a).sum := by
  rw [balanceD, balanceWork_posSum, balanceWork_sum]
  have hsplit := sum_split a
  by_cases h : balanceRev a = true
  · rw [if_pos h, if_pos h, if_pos h]
    rw [balanceSh, balanceSl] at *
    linarith
  · rw [if_neg h, if_neg h, if_neg h]
    rw [balanceSh, balanceSl] at *
    linarith

theorem balanceAsc_perm (a : List ℚ) :
    ((balanceAsc a).map (fun x => x.2)).Perm (balanceWork a) := by
  rw [balanceAsc]
  have h1 : (((balanceWork a).enum.insertionSort
      (fun x y => y.2 ≤ x.2)).reverse).Perm
      ((balanceWork a).enum.insertionSort (fun x y => y.2 ≤ x.2)) :=
    List.reverse_perm _
  have h2 := List.perm_insertionSort (fun x y : ℕ × ℚ => y.2 ≤ x.2)
    (balanceWork a).enum
  have h3 := (h1.trans h2).map (fun x : ℕ × ℚ => x.2)
  have h4 : (balanceWork a).enum.map (fun x : ℕ × ℚ => x.2) = balanceWork a :=
    List.enum_map_snd _
  rwa [h4] at h3

theorem balanceAsc_sorted (a : List ℚ) :
    (balanceAsc a).Pairwise (fun x y => x.2 ≤ y.2) := by
  rw [balanceAsc]
  rw [List.pairwise_reverse]
  exact List.sorted_insertionSort _ _

theorem balanceAsc_posSum (a : List ℚ) :
    ((balanceAsc a).map (fun x => max x.2 0)).sum =
      ((balanceWork a).map (fun x => max x 0)).sum := by
  have h1 : (balanceAsc a).map (fun x => max x.2 0) =
      ((balanceAsc a).map (fun x => x.2)).map (fun x => max x 0) := by
    rw [List.map_map]
    rfl
  rw [h1]
  exact ((balanceAsc_perm a).map (fun x => max x 0)).sum_eq

theorem balanceAsc_sndSum (a : List ℚ) :
    ((balanceAsc a).map (fun x => x.2)).sum = (balanceWork a).sum :=
  (balanceAsc_perm a).sum_eq

/-- The sign-absorption stage preserves the working-list sum. -/
theorem balanceRa_sum (a : List ℚ) :
    ((balanceRa a).map (fun x => x.2)).sum = (balanceWork a).sum := by
  rw [balanceRa]
  by_cases hskip : balanceSkip a = true
  · rw [if_pos hskip]
    exact balanceAsc_sndSum a
  · rw [if_neg hskip]
    rw [absorb_sum (balanceAsc a) (balanceD a) (balanceAsc_sorted a)
      (balanceD_nonneg a) (by rw [balanceAsc_posSum]; exact balanceD_le a)]
    rw [balanceAsc_posSum, balanceD_eq]
    ring

theorem sum_map_neg_snd (l : List (ℕ × ℚ)) :
    (l.map (fun x => -x.2)).sum = -((l.map (fun x => x.2)).sum) := by
  have h : l.map (fun x : ℕ × ℚ => -x.2) =
      (l.map (fun x : ℕ × ℚ => x.2)).map (fun x => -x) := by
    rw [List.map_map]
    rfl
  rw [h, sum_map_neg_q]

theorem sortIdx_snd_sum (l : List (ℕ × ℚ)) :
    ((l.insertionSort (fun x y => x.1 ≤ y.1)).map (fun x => x.2)).sum =
      (l.map (fun x => x.2)).sum :=
  ((List.perm_insertionSort _ l).map _).sum_eq

theorem reverse_snd_sum (l : List (ℕ × ℚ)) :
    ((l.reverse).map (fun x => x.2)).sum = (l.map (fun x => x.2)).sum :=
  ((List.reverse_perm l).map _).sum_eq

/-- After the hard battery clamps the working current is inside
`[ib_min, ib_max]`. -/
theorem ibClamp_bounds (s : InvState) (ib ii : ℚ) (hib : ib_min s ≤ ib_max s) :
    ib_min s ≤ (ibClamp s ib ii).1 ∧ (ibClamp s ib ii).1 ≤ ib_max s := by
  simp only [ibClamp, decide_eq_true_eq]
  split_ifs with h1 h2 h3 <;> constructor <;> linarith

/-- When neither battery clamp fires, `ibClamp` is the identity. -/
theorem ibClamp_id (s : InvState) (ib ii : ℚ)
    (h1 : decide (ib < ib_min s) = false)
    (h2 : decide (ib > ib_max s) = false) :
    ibClamp s ib ii = (ib, ii) := by
  simp only [ibClamp, h1, Bool.false_eq_true, if_false, h2]

/-- The chained `P_MIN` / `P_MAX` clamps land inside `[lo, hi]`. -/
theorem pclamp_bounds (lo hi x : ℚ) (hpg : lo ≤ hi) :
    lo ≤ (if decide ((if decide (x < lo) = true then lo else x) > hi) = true
      then hi else if decide (x < lo) = true then lo else x) ∧
    (if decide ((if decide (x < lo) = true then lo else x) > hi) = true
      then hi else if decide (x < lo) = true then lo else x) ≤ hi := by
  simp only [decide_eq_true_eq]
  split_ifs with h1 h2 <;> constructor <;> linarith

/-- C1 (amended): after the `calc_inv_p` constraint pipeline the working
battery current always satisfies `ib_min ≤ i_batt ≤ ib_max` (given
`ib_min ≤ ib_max`); the grid bound `pg_min ≤ p ≤ pg_max` holds for the
final `p` (the `dest` diagnostic) provided none of the rules after the
`P_MIN`/`P_MAX` clamps — `I_MIN`, `IB_ERR_L`, `IB_ERR_H`, `P_EXC` —
rewrites the working values (plus `pg_min ≤ pg_max`, positive `u_dc` and
`inv_eff`).  Without that proviso the grid bound can fail, see the
counterexample. -/
theorem c1_pipeline_bounds (s : InvState) (p0 : ℚ) (exc : Option ℚ)
    (hib : ib_min s ≤ ib_max s) :
    (ib_min s ≤ (pipeline s p0 exc).i_batt ∧
      (pipeline s p0 exc).i_batt ≤ ib_max s) ∧
    (0 < u_dc s → 0 < s.inv_eff → s.pg_min ≤ s.pg_max →
      (pipeline s p0 exc).r6 = false → (pipeline s p0 exc).r7l = false →
      (pipeline s p0 exc).r7h = false → (pipeline s p0 exc).r8 = false →
      s.pg_min ≤ (pipeline s p0 exc).p ∧ (pipeline s p0 exc).p ≤ s.pg_max) := by
  constructor
  · simp only [pipeline]
    exact ibClamp_bounds s _ _ hib
  · intro hu he hpg h6 h7l h7h h8
    have hrt : ∀ y : ℚ, p_from_i s (i_from_p s y true) false = y := fun y => by
      have h := p_from_i_i_from_p s y true hu he
      simpa using h
    cases exc with
    | none =>
      simp only [pipeline] at h6 h7l h7h ⊢
      simp only [h6, Bool.false_eq_true, if_false] at h7l h7h ⊢
      simp only [h7l, Bool.false_eq_true, if_false] at h7h
      rw [ibClamp_id s _ _ h7l h7h]
      simp only [hrt]
      exact pclamp_bounds s.pg_min s.pg_max _ hpg
    | some e =>
      simp only [pipeline] at h6 h7l h7h h8 ⊢
      simp only [h6, Bool.false_eq_true, if_false] at h7l h7h h8 ⊢
      simp only [h7l, Bool.false_eq_true, if_false] at h7h
      rw [ibClamp_id s _ _ h7l h7h] at h8 ⊢
      simp only [hrt] at h8 ⊢
      rw [if_neg (of_decide_eq_false h8)]
      exact pclamp_bounds s.pg_min s.pg_max _ hpg

/-- C1 witness: on the test configuration with request `-1000` none of
the late rules fire, and both the battery and the grid bounds hold. -/
theorem c1_pipeline_bounds_witness :
    ib_min sTest ≤ ib_max sTest ∧ 0 < u_dc sTest ∧ 0 < sTest.inv_eff ∧
    sTest.pg_min ≤ sTest.pg_max ∧
    (pipeline sTest (-1000) none).r6 = false ∧
    (pipeline sTest (-1000) none).r7l = false ∧
    (pipeline sTest (-1000) none).r7h = false ∧
    (pipeline sTest (-1000) none).r8 = false ∧
    (ib_min sTest ≤ (pipeline sTest (-1000) none).i_batt ∧
      (pipeline sTest (-1000) none).i_batt ≤ ib_max sTest) ∧
    (sTest.pg_min ≤ (pipeline sTest (-1000) none).p ∧
      (pipeline sTest (-1000) none).p ≤ sTest.pg_max) := by
  have hib : ib_min sTest ≤ ib_max sTest := by norm_num [ib_min, ib_max, sTest]
  have hu : 0 < u_dc sTest := by norm_num [u_dc, i_batt, sTest]
  have he : 0 < sTest.inv_eff := by norm_num [sTest]
  have hpg : sTest.pg_min ≤ sTest.pg_max := by norm_num [sTest]
  have h6 : (pipeline sTest (-1000) none).r6 = false := by
    norm_num [pipeline, ibClamp, i_from_p, p_from_i, u_dc, i_batt, ib_max,
      ib_min, i_maxchg, i_maxdis, sTest]
  have h7l : (pipeline sTest (-1000) none).r7l = false := by
    norm_num [pipeline, ibClamp, i_from_p, p_from_i, u_dc, i_batt, ib_max,
      ib_min, i_maxchg, i_maxdis, sTest]
  have h7h : (pipeline sTest (-1000) none).r7h = false := by
    norm_num [pipeline, ibClamp, i_from_p, p_from_i, u_dc, i_batt, ib_max,
      ib_min, i_maxchg, i_maxdis, sTest]
  have h8 : (pipeline sTest (-1000) none).r8 = false := by
    norm_num [pipeline, ibClamp, i_from_p, p_from_i, u_dc, i_batt, ib_max,
      ib_min, i_maxchg, i_maxdis, sTest]
  exact ⟨hib, hu, he, hpg, h6, h7l, h7h, h8,
    (c1_pipeline_bounds sTest (-1000) none hib).1,
    (c1_pipeline_bounds sTest (-1000) none hib).2 hu he hpg h6 h7l h7h h8⟩

/-- C1 counterexample: the claim as stated is false.  On `sPV`
(strong unreported PV feed, battery blocked by the BMS) the pipeline at
request 0 clamps `i_batt` correctly but recomputes the final `p` from
the clamped current, ending at `p = 20000 > pg_max = 1000` — the grid
bound fails after `IB_ERR_L` fired. -/
theorem c1_counterexample :
    ib_min sPV ≤ ib_max sPV ∧
    ¬((ib_min sPV ≤ (pipeline sPV 0 none).i_batt ∧
        (pipeline sPV 0 none).i_batt ≤ ib_max sPV) ∧
      (sPV.pg_min ≤ (pipeline sPV 0 none).p ∧
        (pipeline sPV 0 none).p ≤ sPV.pg_max)) := by
  norm_num [pipeline, ibClamp, i_from_p, p_from_i, u_dc, i_batt, ib_max,
    ib_min, i_maxchg, i_maxdis, sPV]

/-- C2: scenario 6 of the spec and of `test/test_inv.py` — on the test
configuration, `decide(-1000)` should emit `[-500]` (charge capped by
`ib_min` via rule R7).  The current code emits `[-1000]` instead: with
the present `i_from_p`/`p_from_i` efficiency branches the request
converts to a DC charge current of only `-2.5 A`, so the `ib_min = -20`
clamp never engages.  The code contradicts its own test. -/
theorem c2_scenario6 : ∀ fpow : ℕ → ℚ,
    (calc_inv_p fpow sTest (-1000) none none).map (fun r => r.1.phases) =
      some [-1000] ∧
    (calc_inv_p fpow sTest (-1000) none none).map (fun r => r.1.phases) ≠
      some [-500] := by
  intro fpow
  constructor <;>
    norm_num [calc_inv_p, pipeline, ibClamp, i_from_p, p_from_i, u_dc,
      i_batt, batt_soc, ib_max, ib_min, i_maxchg, i_maxdis, small_p_step,
      to_phases, List.replicate, sTest]

/-- C3 (amended): the efficiency round-trip
`p_from_i (i_from_p p rev) (not rev) = p` holds exactly over ℚ for every
non-zero `p` and both values of `rev`, provided `u_dc > 0` and
`inv_eff > 0` (mere non-vanishing is not enough, see the
counterexample). -/
theorem c3_roundtrip (s : InvState) (p : ℚ) (rev : Bool) (hp : p ≠ 0)
    (hu : 0 < u_dc s) (he : 0 < s.inv_eff) :
    p_from_i s (i_from_p s p rev) (!rev) = p :=
  p_from_i_i_from_p s p rev hu he

/-- C3 witness: round-trip at `p = 100`, `rev = false` on the test
configuration (`u_dc = 100`, `inv_eff = 1/4`). -/
theorem c3_roundtrip_witness :
    (100:ℚ) ≠ 0 ∧ 0 < u_dc sTest ∧ 0 < sTest.inv_eff ∧
    p_from_i sTest (i_from_p sTest 100 false) (!false) = 100 :=
  ⟨by norm_num, by norm_num [u_dc, i_batt, sTest], by norm_num [sTest],
    c3_roundtrip sTest 100 false (by norm_num)
      (by norm_num [u_dc, i_batt, sTest]) (by norm_num [sTest])⟩

/-- C3 counterexample: with `u_dc = -100 ≠ 0` and `inv_eff = 1/4 ≠ 0`
the round-trip fails (`100` comes back as `1600`) — the hypotheses
`u_dc ≠ 0` and `inv_eff ≠ 0` of the claim are too weak. -/
theorem c3_counterexample :
    u_dc sNegU ≠ 0 ∧ sNegU.inv_eff ≠ 0 ∧ (100:ℚ) ≠ 0 ∧
    p_from_i sNegU (i_from_p sNegU 100 false) (!false) ≠ 100 := by
  norm_num [u_dc, i_batt, i_from_p, p_from_i, sNegU, sTest]

/-- C4: the capacity-analysis hand-off after a completed run.  The
hand-off names `"p_grid"` (with `use_grid`) and `"p_off"` (skipped run)
are *not* registered modes — `grid_power.py` registers as
`"gridsetpoint"` and `off.py` as `"off"` — so `change_mode` rejects them
with the `unknown` fault instead of switching; only the `"p_inv"`
hand-off is accepted. -/
theorem c4_handoff_unknown :
    (change_mode sCtl (analyze_handoff false true) []).1 =
      Except.error Fault.unknownMode ∧
    (change_mode sCtl (analyze_handoff true false) []).1 =
      Except.error Fault.unknownMode ∧
    (change_mode sCtl (analyze_handoff false false) []).1 = Except.ok () :=
  ⟨rfl, rfl, rfl⟩

/-- C5 counterexample: a `SetMode` request naming the *currently active*
mode, arriving during the 30-second settling window, does not fail with
`too_early` — it succeeds and updates the operator-parameter map. -/
theorem c5_counterexample :
    (change_mode sWin "off" [("power", 5)]).1 = Except.ok () ∧
    (change_mode sWin "off" [("power", 5)]).2.op = [("power", 5)] ∧
    sWin.op ≠ [("power", 5)] :=
  ⟨rfl, rfl, by decide⟩

/-- C5 (amended): a `SetMode` request arriving during the settling window
and naming a mode *different from the active one* fails with the named
fault `too_early`, leaving the whole mode-runner state (active mode and
operator-parameter map) unchanged. -/
theorem c5_too_early (s : CtrlState) (mode : String) (data : List (String × Int))
    (hwin : s.evtLive = false) (hdiff : s.mode ≠ some mode) :
    change_mode s mode data = (Except.error Fault.tooEarly, s) := by
  rw [change_mode, if_pos (Or.inr hdiff), if_pos hwin]

/-- C5 witness: in mode `off` during the settling window, requesting
`idle` returns `too_early` and leaves the state untouched. -/
theorem c5_too_early_witness :
    sWin.evtLive = false ∧ sWin.mode ≠ some "idle" ∧
    change_mode sWin "idle" [] = (Except.error Fault.tooEarly, sWin) :=
  ⟨rfl, by decide, c5_too_early sWin "idle" [] rfl (by decide)⟩

/-- C6: for every non-empty input on which no per-entry clamp becomes
active (in particular when both bounds are `None`), `balance` preserves
the sum of its input. -/
theorem c6_balance_sum (xs : List ℚ) (mmin mmax : Option (ℕ → ℚ))
    (hne : xs ≠ [])
    (hclamp : balanceClampActive xs mmin mmax = false) :
    (balance xs mmin mmax).sum = xs.sum := by
  have hemp : xs.isEmpty = false := by
    cases xs
    · exact absurd rfl hne
    · rfl
  rw [balance]
  rw [balanceClampActive] at hclamp
  simp only [hemp, Bool.false_eq_true, if_false] at hclamp ⊢
  have hwork := balanceWork_sum xs
  have hra := balanceRa_sum xs
  cases hm : (if balanceRev xs = true then mmin else mmax) with
  | none =>
    simp only [hm]
    by_cases hrev : balanceRev xs = true
    · rw [if_pos hrev]
      rw [sum_map_neg_snd, sortIdx_snd_sum, hra, hwork, if_pos hrev]
      ring
    · rw [if_neg hrev]
      rw [sortIdx_snd_sum, hra, hwork, if_neg hrev]
  | some f =>
    simp only [hm] at hclamp ⊢
    rw [clampLoop_no_hit _ _ hclamp]
    by_cases hrev : balanceRev xs = true
    · rw [if_pos hrev]
      rw [sum_map_neg_snd, sortIdx_snd_sum, reverse_snd_sum, hra, hwork,
        if_pos hrev]
      ring
    · rw [if_neg hrev]
      rw [sortIdx_snd_sum, reverse_snd_sum, hra, hwork, if_neg hrev]

/-- C6 witness: the mixed-sign list `[3, -1, 2]` with no bounds — the
absorption stage runs, no clamp is active, and the sum 4 is preserved. -/
theorem c6_balance_sum_witness :
    ([3, -1, 2] : List ℚ) ≠ [] ∧
    balanceClampActive [3, -1, 2] none none = false ∧
    (balance ([3, -1, 2] : List ℚ) none none).sum =
      ([3, -1, 2] : List ℚ).sum := by
  have h1 : ([3, -1, 2] : List ℚ) ≠ [] := by simp
  have h2 : balanceClampActive [3, -1, 2] none none = false := by
    simp [balanceClampActive, ite_self]
  exact ⟨h1, h2, c6_balance_sum _ none none h1 h2⟩

/-- C7: `small_p_step` is symmetric in its two arguments, and it returns
true whenever `|p - q| < p_step`. -/
theorem c7_small_p_step (s : InvState) (p q : ℚ) :
    small_p_step s p q = small_p_step s q p ∧
    (|p - q| < s.p_step → small_p_step s p q = true) :=
  ⟨small_p_step_comm s p q, fun h => by rw [small_p_step, if_pos h]⟩

/-- C7 witness: `|50 - 0| = 50 < p_step = 100` on the test
configuration, so the predicate returns true. -/
theorem c7_small_p_step_witness :
    |(50:ℚ) - 0| < sTest.p_step ∧ small_p_step sTest 50 0 = true := by
  have h : |(50:ℚ) - 0| < sTest.p_step := by
    rw [show ((50:ℚ) - 0) = 50 from by norm_num,
      abs_of_nonneg (by norm_num : (0:ℚ) ≤ 50)]
    norm_num [sTest]
  exact ⟨h, (c7_small_p_step sTest 50 0).2 h⟩

/-- C8: step 5 of the capacity analysis computes
`loss = 1 - (e_dis + e_dis_c)/(e_chg + e_chg_d + 1)`; when the run
reaches it with no skip left, a negative loss marks the result invalid
and the BMS is not programmed, otherwise the BMS is programmed with
`(e_dis, loss, top = true)`. -/
theorem c8_analyze_loss (e_chg e_dis e_chg_d e_dis_c : ℚ) :
    (1 - (e_dis + e_dis_c) / (e_chg + e_chg_d + 1) < 0 →
      analyze_finalize e_chg e_dis e_chg_d e_dis_c 0 =
        ⟨1 - (e_dis + e_dis_c) / (e_chg + e_chg_d + 1), false, none⟩) ∧
    (0 ≤ 1 - (e_dis + e_dis_c) / (e_chg + e_chg_d + 1) →
      analyze_finalize e_chg e_dis e_chg_d e_dis_c 0 =
        ⟨1 - (e_dis + e_dis_c) / (e_chg + e_chg_d + 1), true,
          some (e_dis, 1 - (e_dis + e_dis_c) / (e_chg + e_chg_d + 1), true)⟩) := by
  constructor
  · intro h
    simp only [analyze_finalize]
    rw [if_pos h]
  · intro h
    simp only [analyze_finalize]
    rw [if_neg (not_lt.mpr h), if_neg (by simp)]

/-- C8 witness: the concrete run of the spec — `chg = 10000`,
`dis = 9500`, `chg_d = 200`, `dis_c = 300` gives
`loss = 401/10201 ≈ 0.0393` and submits `(9500, loss, top = true)`. -/
theorem c8_analyze_loss_witness :
    (0:ℚ) ≤ 1 - ((9500:ℚ) + 300) / (10000 + 200 + 1) ∧
    analyze_finalize 10000 9500 200 300 0 =
      ⟨401/10201, true, some (9500, 401/10201, true)⟩ ∧
    |(401:ℚ)/10201 - 393/10000| < 1/10000 := by
  refine ⟨by norm_num, ?_, by norm_num [abs_lt]⟩
  have h := (c8_analyze_loss 10000 9500 200 300).2 (by norm_num)
  rw [h]
  norm_num

/-- C9: every voltage comparison inside the limit calculator uses the
internally corrected DC voltage `u_dc = measured + i_batt * r_int` with
`i_batt` the sign-inverted bus reading, not the raw measurement: the
diagnostic voltage and both voltage-taper thresholds recorded by the
pipeline are functions of the corrected value. -/
theorem c9_udc_corrected (s : InvState) (p0 : ℚ) (exc : Option ℚ) :
    i_batt s = -s.i_batt_meas ∧
    u_dc s = s.u_dc_meas + (-s.i_batt_meas) * s.r_int ∧
    (pipeline s p0 exc).lim_udc = s.u_dc_meas + (-s.i_batt_meas) * s.r_int ∧
    (pipeline s p0 exc).lim_maxchg = s.b_cap / s.cap_scale *
      ((if s.top_off then 0 else s.umax_diff) -
        (s.u_max - (s.u_dc_meas + (-s.i_batt_meas) * s.r_int))) / s.umax_diff ∧
    (pipeline s p0 exc).lim_maxdis = -s.b_cap / s.cap_scale *
      (s.umin_diff - ((s.u_dc_meas + (-s.i_batt_meas) * s.r_int) - s.u_min)) /
        s.umin_diff :=
  ⟨rfl, rfl, rfl, rfl, rfl⟩

/-- C10: a single `_avg_task` step never increases `pv_margin`: it either
leaves it unchanged, or — exactly when the shrink guard
`i_pv_max > 1000 ∧ i_pv < i_pv_max * pv_margin` fires on a present
reading that does not exceed the stored maximum — replaces it by
`i_pv / i_pv_max`, which is strictly smaller; consequently `pv_margin`
is non-increasing over any run of the task. -/
theorem c10_pv_margin_antitone (M m : ℚ) (i : Option ℚ) :
    (avg_step (M, m) i).2 ≤ m ∧
    ((avg_step (M, m) i).2 = m ∨
      ∃ ipv, i = some ipv ∧ ¬(M < ipv) ∧ 1000 < M ∧ ipv < M * m ∧
        (avg_step (M, m) i).2 = ipv / M ∧ (avg_step (M, m) i).2 < m) ∧
    (∀ l : List (Option ℚ), (l.foldl avg_step (M, m)).2 ≤ m) := by
  refine ⟨avg_step_margin_le (M, m) i, ?_, fun l => avg_run_margin_le l (M, m)⟩
  rcases i with _ | ipv
  · left; rfl
  · simp only [avg_step]
    split_ifs with h1 h2
    · left; rfl
    · right
      have hM : (0:ℚ) < M := lt_trans (by norm_num) h2.1
      have hlt : ipv / M < m := (div_lt_iff hM).mpr (by linarith [mul_comm M m, h2.2])
      exact ⟨ipv, rfl, h1, h2.1, h2.2, rfl, hlt⟩
    · left; rfl

end Inv
